import Mathlib

/-! Formal model of the Abra physical-inventory dashboard data pipeline
    (src/physical-inventory-dashboard.py): grid parsing, expiry-label
    parsing, status classification, stockout aggregation, redistribution
    matching, snapshot gating and burn-rate forecasting, embedded
    shallowly as executable Lean definitions, with theorems settling the
    specification claims. -/

namespace Abra

/-- Characters of a string literal (Python strings are modelled as lists
    of characters). -/
def chars (s : String) : List Char := s.data

/-- The default whitespace characters stripped by Python str.strip(). -/
def isWS (c : Char) : Bool :=
  c == ' ' || c == '\t' || c == '\n' || c == '\r' || c == '\x0b' || c == '\x0c'

/-- Python str.strip(). -/
def pyStrip (s : List Char) : List Char :=
  ((s.dropWhile isWS).reverse.dropWhile isWS).reverse

/-- Python str.upper() (ASCII model). -/
def pyUpper (s : List Char) : List Char := s.map Char.toUpper

/-- The Facility_Clean normalization: .astype(str).str.strip().str.upper()
    (source line 122). -/
def pyClean (s : List Char) : List Char := pyUpper (pyStrip s)

/-- Python membership test sep in s for a single character. -/
def pyContains (sep : Char) (s : List Char) : Bool := s.contains sep

/-- Python str.split(sep) for a single-character separator. -/
def pySplit (sep : Char) : List Char → List (List Char)
  | [] => [[]]
  | c :: cs =>
    if c == sep then [] :: pySplit sep cs
    else
      match pySplit sep cs with
      | [] => [[c]]
      | p :: ps => (c :: p) :: ps

/-- Value of a nonempty all-digit character list, none otherwise. -/
def digitsVal? (l : List Char) : Option Nat :=
  if l ≠ [] ∧ l.all Char.isDigit then
    some (l.foldl (fun a c => 10 * a + (c.toNat - 48)) 0)
  else none

/-- Python int(str): strips whitespace, then an optional sign followed by
    decimal digits (underscore separators are not modelled). -/
def pyInt? (s : List Char) : Option Int :=
  match pyStrip s with
  | '+' :: rest => (digitsVal? rest).map Int.ofNat
  | '-' :: rest => (digitsVal? rest).map (fun n => -(n : Int))
  | l => (digitsVal? l).map Int.ofNat

/-- The five-valued urgency classification of the dashboard. -/
inductive Status where
  | unknown
  | expired
  | critical
  | warning
  | safe
  deriving DecidableEq, Repr

/-- get_status (source lines 181-186): classify a days-to-expiry value
    (none models a pandas NaN coming from an unparseable expiry date). -/
def get_status : Option Int → Status
  | none => Status.unknown
  | some days =>
    if days < 0 then Status.expired
    else if days ≤ 60 then Status.critical
    else if days ≤ 120 then Status.warning
    else Status.safe

/-- Days to expiry (source line 179): (Expiry Date - today_date).dt.days,
    with dates modelled as integer day numbers; a missing expiry date
    yields a missing days value. -/
def daysToExpiry (refDate : Int) (expiry : Option Int) : Option Int :=
  expiry.map (fun e => e - refDate)

/-- C1: the status classifier maps a days-to-expiry value to exactly one
    status with inclusive upper bounds evaluated in order: null days is
    UNKNOWN, days < 0 is EXPIRED, 0 <= days <= 60 is CRITICAL,
    61 <= days <= 120 is WARNING, days >= 121 is SAFE; and for reference
    date D the expiry dates D - 1, D + 60, D + 61 and D + 121 classify as
    EXPIRED, CRITICAL, WARNING and SAFE respectively. -/
theorem c1_status_classifier :
    get_status none = Status.unknown
    ∧ (∀ d : Int, get_status (some d) = Status.expired ↔ d < 0)
    ∧ (∀ d : Int, get_status (some d) = Status.critical ↔ 0 ≤ d ∧ d ≤ 60)
    ∧ (∀ d : Int, get_status (some d) = Status.warning ↔ 61 ≤ d ∧ d ≤ 120)
    ∧ (∀ d : Int, get_status (some d) = Status.safe ↔ 121 ≤ d)
    ∧ (∀ D : Int, get_status (daysToExpiry D (some (D - 1))) = Status.expired)
    ∧ (∀ D : Int, get_status (daysToExpiry D (some (D + 60))) = Status.critical)
    ∧ (∀ D : Int, get_status (daysToExpiry D (some (D + 61))) = Status.warning)
    ∧ (∀ D : Int, get_status (daysToExpiry D (some (D + 121))) = Status.safe) := by
  refine ⟨rfl, ?_, ?_, ?_, ?_, ?_, ?_, ?_, ?_⟩
  · intro d
    simp only [get_status]
    split_ifs <;> simp_all
  · intro d
    simp only [get_status]
    split_ifs <;> simp_all
  · intro d
    simp only [get_status]
    split_ifs <;> simp_all <;> omega
  · intro d
    simp only [get_status]
    split_ifs <;> simp_all <;> omega
  · intro D
    have h : D - 1 - D = -1 := by ring
    simp [daysToExpiry, get_status, h]
  · intro D
    have h : D + 60 - D = 60 := by ring
    simp [daysToExpiry, get_status, h]
  · intro D
    have h : D + 61 - D = 61 := by ring
    simp [daysToExpiry, get_status, h]
  · intro D
    have h : D + 121 - D = 121 := by ring
    simp [daysToExpiry, get_status, h]

/-- A calendar date (year, month, day), timezone-naive. -/
structure Date where
  year : Int
  month : Int
  day : Int
  deriving DecidableEq, Repr

/-- Lexicographic comparison of calendar dates. -/
def dateLE (a b : Date) : Bool :=
  a.year < b.year
    || (a.year == b.year
        && (a.month < b.month || (a.month == b.month && a.day ≤ b.day)))

/-- calendar.isleap. -/
def isleap (y : Int) : Bool :=
  y % 4 == 0 && (y % 100 != 0 || y % 400 == 0)

/-- Number of days of month m of year y (the monthrange day table). -/
def monthDays (y m : Int) : Int :=
  if m == 2 then (if isleap y then 29 else 28)
  else if m == 4 || m == 6 || m == 9 || m == 11 then 30
  else 31

/-- calendar.monthrange(y, m).1: the last day of the month, none when the
    month is outside 1..12 (IllegalMonthError). -/
def monthrange (y m : Int) : Option Int :=
  if 1 ≤ m ∧ m ≤ 12 then some (monthDays y m) else none

/-- The earliest calendar date representable as a pandas Timestamp. -/
def tsMin : Date := ⟨1677, 9, 21⟩

/-- The latest calendar date representable as a pandas Timestamp. -/
def tsMax : Date := ⟨2262, 4, 11⟩

/-- pd.to_datetime on a well-formed ISO y-m-d string: succeeds exactly
    when the date lies in the representable Timestamp range (outside it
    the call raises, which parse_expiry catches into NaT). -/
def pdDatetimeYMD (y m d : Int) : Option Date :=
  if dateLE tsMin ⟨y, m, d⟩ && dateLE ⟨y, m, d⟩ tsMax then some ⟨y, m, d⟩
  else none

/-- parse_expiry (source lines 163-174). The generic fallback
    pd.to_datetime(val) on arbitrary raw text is an oracle parameter g
    (returning none when that call raises); every other step is modelled
    directly: strip, the slash test, a two-part split, Python int() on
    both parts, the sub-100 year shift, monthrange, and the final
    pd.to_datetime on the built ISO string.  The function is total: the
    source wraps the whole body in try/except returning NaT, so no input
    raises or aborts the batch. -/
def parse_expiry (g : List Char → Option Date) (val : List Char) : Option Date :=
  if pyContains '/' (pyStrip val) then
    match pySplit '/' (pyStrip val) with
    | [p1, p2] =>
      (match pyInt? p1, pyInt? p2 with
       | some month, some year =>
         (match monthrange (if year < 100 then year + 2000 else year) month with
          | some lastDay =>
            pdDatetimeYMD (if year < 100 then year + 2000 else year) month lastDay
          | none => none)
       | _, _ => none)
    | _ => g val
  else g val

example : ∀ g, parse_expiry g (chars ("6/26")) = some ⟨2026, 6, 30⟩ := fun _ => rfl
example : ∀ g, parse_expiry g (chars ("13/26")) = none := fun _ => rfl
example : ∀ g, parse_expiry g (chars (" 12/99 ")) = some ⟨2099, 12, 31⟩ := fun _ => rfl
example : ∀ g, parse_expiry g (chars ("ab/26")) = none := fun _ => rfl
example : parse_expiry (fun _ => some ⟨2030, 1, 2⟩) (chars ("abc")) = some ⟨2030, 1, 2⟩ := rfl
example : ∀ g, parse_expiry g (chars ("2/24")) = some ⟨2024, 2, 29⟩ := fun _ => rfl

theorem dropWhile_eq_self_of {α} {p : α → Bool} {l : List α}
    (h : ∀ c ∈ l, p c = false) : l.dropWhile p = l := by
  cases l with
  | nil => rfl
  | cons a t => simp [List.dropWhile, h a (List.mem_cons_self a t)]

theorem pyStrip_eq_self {l : List Char} (h : ∀ c ∈ l, isWS c = false) :
    pyStrip l = l := by
  unfold pyStrip
  rw [dropWhile_eq_self_of h,
    dropWhile_eq_self_of (fun c hc => h c (List.mem_reverse.mp hc)),
    List.reverse_reverse]

theorem pySplit_sep_append {sep : Char} {s1 s2 : List Char} (h : sep ∉ s1) :
    pySplit sep (s1 ++ sep :: s2) = s1 :: pySplit sep s2 := by
  induction s1 with
  | nil => simp [pySplit]
  | cons a t ih =>
    have ha : (a == sep) = false := by
      simp only [beq_eq_false_iff_ne]
      intro hh
      exact h (hh ▸ List.mem_cons_self a t)
    have ih' := ih (fun hm => h (List.mem_cons_of_mem a hm))
    simp only [List.cons_append, pySplit, ha, Bool.false_eq_true, if_false,
      List.append_eq, ih']

theorem pySplit_eq_single {sep : Char} {s : List Char} (h : sep ∉ s) :
    pySplit sep s = [s] := by
  induction s with
  | nil => rfl
  | cons a t ih =>
    have ha : (a == sep) = false := by
      simp only [beq_eq_false_iff_ne]
      intro hh
      exact h (hh ▸ List.mem_cons_self a t)
    have ih' := ih (fun hm => h (List.mem_cons_of_mem a hm))
    simp only [pySplit, ha, Bool.false_eq_true, if_false, ih']

theorem isWS_of_digit {c : Char} (h : c.isDigit = true) : isWS c = false := by
  simp only [isWS, Bool.or_eq_false_iff, beq_eq_false_iff_ne]
  refine ⟨⟨⟨⟨⟨?_, ?_⟩, ?_⟩, ?_⟩, ?_⟩, ?_⟩ <;>
    · rintro rfl
      exact absurd h (by decide)

theorem ne_slash_of_digit {c : Char} (h : c.isDigit = true) : c ≠ '/' := by
  rintro rfl
  exact absurd h (by decide)

/-- C2: parse_expiry never raises (it is a total function) and maps every
    label class as specified: a numeric M/YY label with a valid month and
    a two-digit year resolves to the last calendar day of that month in
    year 2000 + YY (for example 6/26 gives June 30, 2026); a bad month
    such as 13/26 gives null; non-numeric parts around a single slash
    give null; any other label is handed to the generic date parser on
    the raw text, whose failure also gives null. -/
theorem c2_parse_expiry :
    (∀ (g : List Char → Option Date) (s1 s2 : List Char) (m y : Int),
      (∀ c ∈ s1, c.isDigit = true) → (∀ c ∈ s2, c.isDigit = true) →
      pyInt? s1 = some m → pyInt? s2 = some y →
      1 ≤ m → m ≤ 12 → 0 ≤ y → y < 100 →
      parse_expiry g (s1 ++ '/' :: s2)
        = some ⟨y + 2000, m, monthDays (y + 2000) m⟩)
    ∧ (∀ g, parse_expiry g (chars ("6/26")) = some ⟨2026, 6, 30⟩)
    ∧ (∀ (g : List Char → Option Date) (s1 s2 : List Char) (m y : Int),
      (∀ c ∈ s1, c.isDigit = true) → (∀ c ∈ s2, c.isDigit = true) →
      pyInt? s1 = some m → pyInt? s2 = some y → ¬(1 ≤ m ∧ m ≤ 12) →
      parse_expiry g (s1 ++ '/' :: s2) = none)
    ∧ (∀ g, parse_expiry g (chars ("13/26")) = none)
    ∧ (∀ (g : List Char → Option Date) (s1 s2 : List Char),
      (∀ c ∈ s1, isWS c = false ∧ c ≠ '/') →
      (∀ c ∈ s2, isWS c = false ∧ c ≠ '/') →
      (pyInt? s1 = none ∨ pyInt? s2 = none) →
      parse_expiry g (s1 ++ '/' :: s2) = none)
    ∧ (∀ (g : List Char → Option Date) (val : List Char),
      pyContains '/' (pyStrip val) = false
        ∨ (pySplit '/' (pyStrip val)).length ≠ 2 →
      parse_expiry g val = g val) := by
  have hstrip : ∀ (s1 s2 : List Char), (∀ c ∈ s1, isWS c = false) →
      (∀ c ∈ s2, isWS c = false) →
      pyStrip (s1 ++ '/' :: s2) = s1 ++ '/' :: s2 := by
    intro s1 s2 h1 h2
    refine pyStrip_eq_self ?_
    intro c hc
    rcases List.mem_append.mp hc with h | h
    · exact h1 c h
    · rcases List.mem_cons.mp h with rfl | h
      · decide
      · exact h2 c h
  have hcon : ∀ (s1 s2 : List Char),
      pyContains '/' (s1 ++ '/' :: s2) = true := by
    intro s1 s2
    simp [pyContains]
  refine ⟨?_, fun _ => rfl, ?_, fun _ => rfl, ?_, ?_⟩
  · intro g s1 s2 m y hd1 hd2 hm hy h1 h2 h3 h4
    have hn1 : '/' ∉ s1 := fun hc => ne_slash_of_digit (hd1 _ hc) rfl
    have hn2 : '/' ∉ s2 := fun hc => ne_slash_of_digit (hd2 _ hc) rfl
    have hs := hstrip s1 s2 (fun c hc => isWS_of_digit (hd1 c hc))
      (fun c hc => isWS_of_digit (hd2 c hc))
    have hsplit : pySplit '/' (s1 ++ '/' :: s2) = [s1, s2] := by
      rw [pySplit_sep_append hn1, pySplit_eq_single hn2]
    unfold parse_expiry
    rw [hs, hcon, if_pos rfl, hsplit]
    simp only [hm, hy, if_pos h4]
    have hmr : monthrange (y + 2000) m = some (monthDays (y + 2000) m) := by
      simp [monthrange, h1, h2]
    have hb : (dateLE tsMin ⟨y + 2000, m, monthDays (y + 2000) m⟩
        && dateLE ⟨y + 2000, m, monthDays (y + 2000) m⟩ tsMax) = true := by
      simp only [dateLE, tsMin, tsMax, Bool.and_eq_true, Bool.or_eq_true,
        decide_eq_true_eq, beq_iff_eq]
      exact ⟨Or.inl (by omega), Or.inl (by omega)⟩
    simp only [hmr, pdDatetimeYMD, hb, if_true]
  · intro g s1 s2 m y hd1 hd2 hm hy hbad
    have hn1 : '/' ∉ s1 := fun hc => ne_slash_of_digit (hd1 _ hc) rfl
    have hn2 : '/' ∉ s2 := fun hc => ne_slash_of_digit (hd2 _ hc) rfl
    have hs := hstrip s1 s2 (fun c hc => isWS_of_digit (hd1 c hc))
      (fun c hc => isWS_of_digit (hd2 c hc))
    have hsplit : pySplit '/' (s1 ++ '/' :: s2) = [s1, s2] := by
      rw [pySplit_sep_append hn1, pySplit_eq_single hn2]
    unfold parse_expiry
    rw [hs, hcon, if_pos rfl, hsplit]
    simp only [hm, hy]
    have hmr : monthrange (if y < 100 then y + 2000 else y) m = none := by
      simp [monthrange, hbad]
    rw [hmr]
  · intro g s1 s2 hp1 hp2 hnum
    have hn1 : '/' ∉ s1 := fun hc => (hp1 _ hc).2 rfl
    have hn2 : '/' ∉ s2 := fun hc => (hp2 _ hc).2 rfl
    have hs := hstrip s1 s2 (fun c hc => (hp1 c hc).1) (fun c hc => (hp2 c hc).1)
    have hsplit : pySplit '/' (s1 ++ '/' :: s2) = [s1, s2] := by
      rw [pySplit_sep_append hn1, pySplit_eq_single hn2]
    unfold parse_expiry
    rw [hs, hcon, if_pos rfl, hsplit]
    rcases hnum with h | h
    · simp only [h]
    · cases hx : pyInt? s1 <;> simp only [hx, h]
  · intro g val h
    unfold parse_expiry
    rcases h with h | h
    · rw [h]
      simp
    · by_cases hc : pyContains '/' (pyStrip val) = true
      · rw [hc, if_pos rfl]
        rcases hx : pySplit '/' (pyStrip val) with _ | ⟨p1, _ | ⟨p2, _ | _⟩⟩ <;>
          simp_all
      · simp [hc]

/-- Witness for c2_parse_expiry: the four hypothesis-bearing conjuncts
    applied at concrete labels. -/
theorem c2_parse_expiry_witness :
    parse_expiry (fun _ => none) (chars ("6") ++ '/' :: chars ("26"))
      = some ⟨2026, 6, 30⟩
    ∧ parse_expiry (fun _ => none) (chars ("13") ++ '/' :: chars ("26")) = none
    ∧ parse_expiry (fun _ => none) (chars ("ab") ++ '/' :: chars ("26")) = none
    ∧ parse_expiry (fun _ => none) (chars ("hello")) = none := by
  refine ⟨?_, ?_, ?_, ?_⟩
  · have h := c2_parse_expiry.1 (fun _ => none) (chars ("6")) (chars ("26"))
      6 26 (by decide) (by decide) (by decide) (by decide)
      (by decide) (by decide) (by decide) (by decide)
    exact h.trans (by decide)
  · exact c2_parse_expiry.2.2.1 (fun _ => none) (chars ("13")) (chars ("26"))
      13 26 (by decide) (by decide) (by decide) (by decide) (by decide)
  · exact c2_parse_expiry.2.2.2.2.1 (fun _ => none) (chars ("ab")) (chars ("26"))
      (by decide) (by decide) (Or.inl (by decide))
  · exact c2_parse_expiry.2.2.2.2.2 (fun _ => none) (chars ("hello"))
      (Or.inl (by decide))

/-- One record of the melted (flattened) set, before any quantity filter
    (source lines 116-122): raw facility name, its normalized
    Facility_Clean form, vaccine, lot, raw expiry label and the coerced
    integer quantity. -/
structure MRec where
  facility : List Char
  facilityClean : List Char
  vaccine : List Char
  lot : List Char
  expiryLabel : List Char
  qty : Int
  deriving DecidableEq, Repr

/-- The groupby key of the stockout aggregation (source line 158):
    (Health Facility, Facility_Clean, Vaccine). -/
def gKey (r : MRec) : List Char × List Char × List Char :=
  (r.facility, r.facilityClean, r.vaccine)

/-- facility_vax_totals (source line 158): one row per distinct key with
    the summed quantity of its rows. -/
def facility_vax_totals (recs : List MRec) :
    List ((List Char × List Char × List Char) × Int) :=
  ((recs.map gKey).dedup).map
    (fun k => (k, ((recs.filter (fun r => decide (gKey r = k))).map MRec.qty).sum))

/-- stockouts_df (source line 159): the groups whose total is exactly 0. -/
def stockouts_df (recs : List MRec) :
    List ((List Char × List Char × List Char) × Int) :=
  (facility_vax_totals recs).filter (fun e => decide (e.2 = 0))

/-- Summed quantity over the rows of one raw (facility, vaccine) pair. -/
def pairSum (recs : List MRec) (f v : List Char) : Int :=
  ((recs.filter (fun r => decide (r.facility = f ∧ r.vaccine = v))).map MRec.qty).sum

/-- The raw (facility, vaccine) pair appears among the flattened rows. -/
def pairOccurs (recs : List MRec) (f v : List Char) : Prop :=
  ∃ r ∈ recs, r.facility = f ∧ r.vaccine = v

theorem countP_key_le_one {α} [DecidableEq α] {l : List α} (h : l.Nodup) (K : α) :
    l.countP (fun k => decide (k = K)) ≤ 1 := by
  induction l with
  | nil => simp
  | cons a t ih =>
    rw [List.countP_cons]
    rcases List.nodup_cons.mp h with ⟨ha, ht⟩
    by_cases hK : a = K
    · subst hK
      have hz : t.countP (fun k => decide (k = a)) = 0 := by
        rw [List.countP_eq_zero]
        intro b hb
        simp only [decide_eq_true_eq]
        intro hba
        exact ha (hba ▸ hb)
      simp [hz]
    · have hz : (decide (a = K)) = false := by simp [hK]
      rw [hz]
      simpa using ih ht

/-- C3: assuming every row carries the normalized form of its own raw
    facility name (which the flattener guarantees), a stockout entry for
    the pair (f, v) exists iff the pair appears in the full pre-filter
    flattened set and its summed quantity over all lots is exactly zero;
    and at most one such entry exists, so exactly one when the condition
    holds. -/
theorem c3_stockout_iff (recs : List MRec) (f v : List Char)
    (h : ∀ r ∈ recs, r.facilityClean = pyClean r.facility) :
    ((∃ e ∈ stockouts_df recs, e.1 = (f, pyClean f, v)) ↔
      pairOccurs recs f v ∧ pairSum recs f v = 0)
    ∧ (stockouts_df recs).countP (fun e => decide (e.1 = (f, pyClean f, v))) ≤ 1 := by
  have hkey : ∀ r ∈ recs,
      (gKey r = (f, pyClean f, v)) ↔ (r.facility = f ∧ r.vaccine = v) := by
    intro r hr
    unfold gKey
    rw [Prod.ext_iff, Prod.ext_iff]
    constructor
    · rintro ⟨e1, _, e3⟩
      exact ⟨e1, e3⟩
    · rintro ⟨e1, e3⟩
      exact ⟨e1, by rw [h r hr, e1], e3⟩
  have hfilter : recs.filter (fun r => decide (gKey r = (f, pyClean f, v)))
      = recs.filter (fun r => decide (r.facility = f ∧ r.vaccine = v)) := by
    apply List.filter_congr
    intro r hr
    simp only [decide_eq_decide]
    exact hkey r hr
  have hmem : ((f, pyClean f, v) ∈ (recs.map gKey).dedup) ↔ pairOccurs recs f v := by
    rw [List.mem_dedup, List.mem_map]
    constructor
    · rintro ⟨r, hr, he⟩
      exact ⟨r, hr, (hkey r hr).mp he⟩
    · rintro ⟨r, hr, h1, h2⟩
      exact ⟨r, hr, (hkey r hr).mpr ⟨h1, h2⟩⟩
  constructor
  · constructor
    · rintro ⟨e, he, hK⟩
      rcases List.mem_filter.mp he with ⟨hef, hz⟩
      rcases List.mem_map.mp hef with ⟨k, hk, rfl⟩
      simp only at hK
      subst hK
      refine ⟨hmem.mp hk, ?_⟩
      unfold pairSum
      rw [← hfilter]
      simpa using hz
    · rintro ⟨hocc, hsum⟩
      refine ⟨((f, pyClean f, v),
        ((recs.filter (fun r => decide (gKey r = (f, pyClean f, v)))).map MRec.qty).sum),
        List.mem_filter.mpr ⟨?_, ?_⟩, rfl⟩
      · exact List.mem_map.mpr ⟨(f, pyClean f, v), hmem.mpr hocc, rfl⟩
      · simp only [decide_eq_true_eq]
        unfold pairSum at hsum
        rw [hfilter]
        exact hsum
  · have h1 : (stockouts_df recs).countP (fun e => decide (e.1 = (f, pyClean f, v)))
        ≤ (facility_vax_totals recs).countP (fun e => decide (e.1 = (f, pyClean f, v))) := by
      unfold stockouts_df
      rw [List.countP_filter]
      apply List.countP_mono_left
      intro a _ ha
      rw [Bool.and_eq_true] at ha
      exact ha.1
    have h2 : (facility_vax_totals recs).countP (fun e => decide (e.1 = (f, pyClean f, v)))
        = ((recs.map gKey).dedup).countP (fun k => decide (k = (f, pyClean f, v))) := by
      unfold facility_vax_totals
      rw [List.countP_map]
      rfl
    have h3 := countP_key_le_one (List.nodup_dedup (recs.map gKey)) (f, pyClean f, v)
    omega

/-- Witness for c3_stockout_iff: a concrete one-row set whose single
    (facility, vaccine) pair sums to zero. -/
theorem c3_stockout_iff_witness :
    ((∃ e ∈ stockouts_df [⟨chars ("A"), chars ("A"), chars ("B"), [], [], 0⟩],
        e.1 = (chars ("A"), pyClean (chars ("A")), chars ("B"))) ↔
      pairOccurs [⟨chars ("A"), chars ("A"), chars ("B"), [], [], 0⟩]
          (chars ("A")) (chars ("B"))
        ∧ pairSum [⟨chars ("A"), chars ("A"), chars ("B"), [], [], 0⟩]
            (chars ("A")) (chars ("B")) = 0)
    ∧ (stockouts_df [⟨chars ("A"), chars ("A"), chars ("B"), [], [], 0⟩]).countP
        (fun e => decide (e.1 = (chars ("A"), pyClean (chars ("A")), chars ("B")))) ≤ 1 :=
  c3_stockout_iff [⟨chars ("A"), chars ("A"), chars ("B"), [], [], 0⟩]
    (chars ("A")) (chars ("B")) (by decide)

/-- C10: the stockout aggregation keys on the raw facility spelling: two
    spellings that differ (here only by case or surrounding whitespace,
    sharing one facility_key) land in distinct groups, rows of the other
    spelling never contribute to a pair's sum or to its occurrence, and in
    a concrete two-row set the all-zero spelling BANGUED gets its own
    stockout entry while the positive-quantity spelling " Bangued" gets
    none. -/
theorem c10_raw_facility_grouping (recs : List MRec) (r1 r2 : MRec)
    (f1 f2 v : List Char) (h1 : f1 ≠ f2) (h2 : pyClean f1 = pyClean f2)
    (hr1 : r1.facility = f1) (hr2 : r2.facility = f2) :
    gKey r1 ≠ gKey r2
    ∧ pairSum (r2 :: recs) f1 v = pairSum recs f1 v
    ∧ (pairOccurs (r2 :: recs) f1 v ↔ pairOccurs recs f1 v)
    ∧ (∃ e ∈ stockouts_df
        [⟨chars ("BANGUED"), pyClean (chars ("BANGUED")), chars ("BCG"),
          chars ("L1"), chars ("6/26"), 0⟩,
         ⟨chars (" Bangued"), pyClean (chars (" Bangued")), chars ("BCG"),
          chars ("L1"), chars ("6/26"), 5⟩],
        e.1.1 = chars ("BANGUED"))
    ∧ (∀ e ∈ stockouts_df
        [⟨chars ("BANGUED"), pyClean (chars ("BANGUED")), chars ("BCG"),
          chars ("L1"), chars ("6/26"), 0⟩,
         ⟨chars (" Bangued"), pyClean (chars (" Bangued")), chars ("BCG"),
          chars ("L1"), chars ("6/26"), 5⟩],
        e.1.1 ≠ chars (" Bangued")) := by
  have hne : r2.facility ≠ f1 := by
    rw [hr2]
    exact fun hx => h1 hx.symm
  refine ⟨?_, ?_, ?_, by decide, by decide⟩
  · intro hg
    unfold gKey at hg
    rw [Prod.ext_iff] at hg
    exact h1 (hr1 ▸ hr2 ▸ hg.1)
  · unfold pairSum
    have hnot : ¬(r2.facility = f1 ∧ r2.vaccine = v) := fun hx => hne hx.1
    simp [List.filter_cons, hnot]
  · constructor
    · rintro ⟨r, hr, hf, hv⟩
      rcases List.mem_cons.mp hr with rfl | hr'
      · exact absurd hf hne
      · exact ⟨r, hr', hf, hv⟩
    · rintro ⟨r, hr, hf, hv⟩
      exact ⟨r, List.mem_cons_of_mem _ hr, hf, hv⟩

/-- Witness for c10_raw_facility_grouping at two concrete spellings of one
    facility_key. -/
theorem c10_raw_facility_grouping_witness :
    gKey ⟨chars ("BANGUED"), chars ("BANGUED"), chars ("BCG"), [], [], 0⟩
        ≠ gKey ⟨chars (" Bangued"), chars ("BANGUED"), chars ("BCG"), [], [], 5⟩
    ∧ pairSum [⟨chars (" Bangued"), chars ("BANGUED"), chars ("BCG"), [], [], 5⟩]
        (chars ("BANGUED")) (chars ("BCG"))
      = pairSum [] (chars ("BANGUED")) (chars ("BCG")) := by
  have h := c10_raw_facility_grouping []
    ⟨chars ("BANGUED"), chars ("BANGUED"), chars ("BCG"), [], [], 0⟩
    ⟨chars (" Bangued"), chars ("BANGUED"), chars ("BCG"), [], [], 5⟩
    (chars ("BANGUED")) (chars (" Bangued")) (chars ("BCG"))
    (by decide) (by decide) rfl rfl
  exact ⟨h.1, h.2.1⟩

/-- clean_df (source line 162): the rows with strictly positive quantity. -/
def clean_df (recs : List MRec) : List MRec :=
  recs.filter (fun r => decide (0 < r.qty))

/-- The literal blank-marker list of the missing-lot check (source line
    200): isin(['', 'nan', 'None', 'NAN']), an exact string comparison. -/
def lotBlankMarkers : List (List Char) :=
  [[], chars ("nan"), chars ("None"), chars ("NAN")]

/-- missing_lot (source line 200): positive-quantity rows whose stripped
    lot string is one of the four literal markers. -/
def missing_lot (recs : List MRec) : List MRec :=
  (clean_df recs).filter (fun r => decide (pyStrip r.lot ∈ lotBlankMarkers))

/-- C7 counterexample: a positive-quantity record whose trimmed lot NONE
    equals the blank-marker none up to letter case, yet missing_lot does
    not flag it — the source compares case-sensitively against the exact
    strings '', 'nan', 'None', 'NAN'. -/
theorem c7_counterexample :
    pyUpper (pyStrip (chars ("NONE"))) = pyUpper (chars ("none"))
    ∧ (0 : Int) < 5
    ∧ missing_lot [⟨chars ("BANGUED"), chars ("BANGUED"), chars ("BCG"),
        chars ("NONE"), chars ("6/26"), 5⟩] = [] := by
  decide

/-- C7 (amended): for records with positive quantity, a MISSING_LOT
    anomaly is flagged exactly when the trimmed lot equals one of the
    literal strings '', 'nan', 'None', 'NAN' under case-SENSITIVE
    comparison (so none, NONE, NaN and Nan are not flagged). -/
theorem c7_missing_lot_amended (recs : List MRec) (r : MRec) :
    r ∈ missing_lot recs ↔
      r ∈ recs ∧ 0 < r.qty ∧ pyStrip r.lot ∈ lotBlankMarkers := by
  unfold missing_lot clean_df
  rw [List.mem_filter, List.mem_filter]
  simp [and_assoc]

/-- One clean_df row as the redistribution matcher sees it (source lines
    454-468): facility, vaccine, quantity, parsed expiry date and days to
    expiry (none models NaN/NaT). -/
structure CRec where
  facility : List Char
  vaccine : List Char
  qty : Int
  expiryDate : Option Int
  daysToExp : Option Int
  deriving DecidableEq, Repr

/-- The key order of sort_values('Days to Expiry'): ascending with NaN
    placed last (the pandas default na_position). -/
def leDays : Option Int → Option Int → Bool
  | some a, some b => decide (a ≤ b)
  | some _, none => true
  | none, some _ => false
  | none, none => true

/-- donors (source line 458): same vaccine, quantity strictly above 50,
    different facility. -/
def donors (df : List CRec) (vax dest : List Char) : List CRec :=
  df.filter (fun r => decide (r.vaccine = vax) && decide (50 < r.qty)
    && decide (r.facility ≠ dest))

/-- best_donor (source line 461): the first row of the donor set after an
    ascending sort on days to expiry, i.e. the earliest-positioned row
    attaining the minimal key. -/
def best_donor : List CRec → Option CRec
  | [] => none
  | d :: rest =>
    some (rest.foldl (fun best r =>
      if leDays best.daysToExp r.daysToExp then best else r) d)

theorem leDays_refl (a : Option Int) : leDays a a = true := by
  cases a <;> simp [leDays]

theorem leDays_total (a b : Option Int) :
    leDays a b = true ∨ leDays b a = true := by
  cases a <;> cases b <;> simp [leDays] <;> omega

theorem leDays_trans {a b c : Option Int} (h1 : leDays a b = true)
    (h2 : leDays b c = true) : leDays a c = true := by
  cases a <;> cases b <;> cases c <;> simp [leDays] at * <;> omega

theorem foldl_min_eq_find? (l : List CRec) (d : CRec) :
    some (l.foldl (fun best r =>
        if leDays best.daysToExp r.daysToExp then best else r) d)
      = (d :: l).find? (fun r => (d :: l).all
          (fun s => leDays r.daysToExp s.daysToExp)) := by
  induction l generalizing d with
  | nil => simp [List.find?, leDays_refl]
  | cons r t ih =>
    rw [List.foldl_cons]
    by_cases hdr : leDays d.daysToExp r.daysToExp = true
    · rw [if_pos hdr, ih d]
      have hP : ∀ x : CRec,
          ((d :: r :: t).all (fun s => leDays x.daysToExp s.daysToExp))
            = ((d :: t).all (fun s => leDays x.daysToExp s.daysToExp)) := by
        intro x
        cases hxd : leDays x.daysToExp d.daysToExp with
        | false => simp [List.all_cons, hxd]
        | true =>
          have hxr : leDays x.daysToExp r.daysToExp = true := leDays_trans hxd hdr
          simp [List.all_cons, hxd, hxr]
      have hfun : (fun x : CRec => (d :: r :: t).all
            (fun s => leDays x.daysToExp s.daysToExp))
          = (fun x : CRec => (d :: t).all
            (fun s => leDays x.daysToExp s.daysToExp)) := funext hP
      rw [hfun]
      by_cases hPd : ((d :: t).all (fun s => leDays d.daysToExp s.daysToExp)) = true
      · simp only [List.find?_cons, hPd]
      · have hPd0 : ((d :: t).all (fun s => leDays d.daysToExp s.daysToExp)) = false := by
          simpa using hPd
        have hPr : ((d :: t).all (fun s => leDays r.daysToExp s.daysToExp)) = false := by
          rw [Bool.eq_false_iff]
          intro hPr
          rw [List.all_cons, Bool.and_eq_true] at hPr
          apply hPd
          rw [List.all_cons, Bool.and_eq_true]
          refine ⟨leDays_refl _, ?_⟩
          rw [List.all_eq_true]
          intro s hs
          have hrs : leDays r.daysToExp s.daysToExp = true := by
            rw [List.all_eq_true] at hPr
            exact hPr.2 s hs
          exact leDays_trans hdr hrs
        simp only [List.find?_cons, hPd0, hPr]
    · rw [if_neg hdr]
      have hrd : leDays r.daysToExp d.daysToExp = true := by
        rcases leDays_total d.daysToExp r.daysToExp with hh | hh
        · exact absurd hh hdr
        · exact hh
      rw [ih r]
      have hP : ∀ x : CRec,
          ((d :: r :: t).all (fun s => leDays x.daysToExp s.daysToExp))
            = ((r :: t).all (fun s => leDays x.daysToExp s.daysToExp)) := by
        intro x
        cases hxr : leDays x.daysToExp r.daysToExp with
        | false => simp [List.all_cons, hxr]
        | true =>
          have hxd : leDays x.daysToExp d.daysToExp = true :=
            leDays_trans hxr hrd
          simp [List.all_cons, hxr, hxd]
      have hfun : (fun x : CRec => (d :: r :: t).all
            (fun s => leDays x.daysToExp s.daysToExp))
          = (fun x : CRec => (r :: t).all
            (fun s => leDays x.daysToExp s.daysToExp)) := funext hP
      rw [hfun]
      have hPd : ((r :: t).all (fun s => leDays d.daysToExp s.daysToExp)) = false := by
        rw [Bool.eq_false_iff]
        intro hh
        rw [List.all_cons, Bool.and_eq_true] at hh
        exact hdr hh.1
      simp only [List.find?_cons, hPd]

theorem best_donor_eq_find? (l : List CRec) :
    best_donor l = l.find? (fun r => l.all
      (fun s => leDays r.daysToExp s.daysToExp)) := by
  cases l with
  | nil => rfl
  | cons d t => exact foldl_min_eq_find? t d

/-- C4: the donor set for a stockout is exactly the same-vaccine rows
    with quantity strictly above 50 at a facility other than the
    stockout's own; the suggestion is the first donor attaining the
    smallest days-to-expiry (ascending sort, nulls last, ties by
    position); an empty donor set yields no suggestion; and on the
    example with donors {Y: qty 60, days 10} and {Z: qty 100, days 200}
    the donor Y is chosen. -/
theorem c4_redistribution (df : List CRec) (vax dest : List Char) :
    (∀ r, r ∈ donors df vax dest ↔
      r ∈ df ∧ r.vaccine = vax ∧ 50 < r.qty ∧ r.facility ≠ dest)
    ∧ best_donor (donors df vax dest)
        = (donors df vax dest).find? (fun r => (donors df vax dest).all
            (fun s => leDays r.daysToExp s.daysToExp))
    ∧ (donors df vax dest = [] ↔ best_donor (donors df vax dest) = none)
    ∧ best_donor (donors
        [⟨chars ("Y"), chars ("V"), 60, some 100, some 10⟩,
         ⟨chars ("Z"), chars ("V"), 100, some 300, some 200⟩]
        (chars ("V")) (chars ("X")))
      = some ⟨chars ("Y"), chars ("V"), 60, some 100, some 10⟩ := by
  refine ⟨?_, best_donor_eq_find? _, ?_, by decide⟩
  · intro r
    unfold donors
    rw [List.mem_filter]
    simp [and_assoc]
  · cases h : donors df vax dest with
    | nil => simp [best_donor]
    | cons d t =>
      simp [best_donor]

/-- C9: when some qualifying donor has a non-null days-to-expiry, the
    selected donor has non-null days (rows with null days sort after all
    numeric rows) and — given that a row's days field is null exactly
    when its expiry date is null, as the pipeline computes days from the
    date — a non-null expiry date, so formatting the suggested donor's
    expiry date cannot fail. -/
theorem c9_donor_expiry_safe (df : List CRec) (vax dest : List Char)
    (hinv : ∀ r ∈ df, r.daysToExp = none ↔ r.expiryDate = none)
    (hex : ∃ r ∈ donors df vax dest, r.daysToExp ≠ none) :
    (∀ a : Int, leDays (some a) none = true ∧ leDays none (some a) = false)
    ∧ ∃ b, best_donor (donors df vax dest) = some b
        ∧ b.daysToExp ≠ none ∧ b.expiryDate ≠ none := by
  refine ⟨fun a => ⟨rfl, rfl⟩, ?_⟩
  rcases hex with ⟨r, hrmem, hrdays⟩
  have hne : donors df vax dest ≠ [] := by
    intro hh
    rw [hh] at hrmem
    exact List.not_mem_nil r hrmem
  obtain ⟨b, hfind⟩ : ∃ b, best_donor (donors df vax dest) = some b := by
    rcases hd : donors df vax dest with _ | ⟨d, t⟩
    · exact absurd hd hne
    · exact ⟨_, rfl⟩
  refine ⟨b, hfind, ?_⟩
  rw [best_donor_eq_find?] at hfind
  have hbmem := List.mem_of_find?_eq_some hfind
  have hbP := List.find?_some hfind
  rw [List.all_eq_true] at hbP
  have hbr := hbP r hrmem
  have hbd : b.daysToExp ≠ none := by
    intro hb
    rcases hr : r.daysToExp with _ | a
    · exact hrdays hr
    · rw [hb, hr] at hbr
      exact Bool.false_ne_true hbr
  have hbdf : b ∈ df := List.mem_of_mem_filter hbmem
  refine ⟨hbd, ?_⟩
  intro hbe
  exact hbd ((hinv b hbdf).mpr hbe)

/-- Witness for c9_donor_expiry_safe at a concrete one-donor set. -/
theorem c9_donor_expiry_safe_witness :
    (∀ a : Int, leDays (some a) none = true ∧ leDays none (some a) = false)
    ∧ ∃ b, best_donor (donors [⟨chars ("Y"), chars ("V"), 60, some 100, some 10⟩]
        (chars ("V")) (chars ("X"))) = some b
        ∧ b.daysToExp ≠ none ∧ b.expiryDate ≠ none :=
  c9_donor_expiry_safe [⟨chars ("Y"), chars ("V"), 60, some 100, some 10⟩]
    (chars ("V")) (chars ("X")) (by decide)
    ⟨⟨chars ("Y"), chars ("V"), 60, some 100, some 10⟩, by decide, by decide⟩

/-- One row of the external HISTORY LOG worksheet: the raw Date string,
    Health Facility, Vaccine and Qty. -/
structure HRow where
  dateStr : List Char
  facility : List Char
  vaccine : List Char
  qty : Int
  deriving DecidableEq, Repr

/-- Date_Temp followed by .max() (source lines 128-129):
    pd.to_datetime(..., errors='coerce') over the Date column — modelled
    by the string-date parser oracle pdate, dates as integer day
    numbers — then the maximum over the parseable dates, NaT when none. -/
def lastSnapshotDate (pdate : List Char → Option Int) (hist : List HRow) : Option Int :=
  (hist.filterMap (fun r => pdate r.dateStr)).max?

/-- needs_update (source lines 134-138): true when no last snapshot date
    exists or it lies at least 7 days before the reference date. -/
def needsUpdate (pdate : List Char → Option Int) (hist : List HRow)
    (today : Int) : Bool :=
  match lastSnapshotDate pdate hist with
  | none => true
  | some d => decide (7 ≤ today - d)

/-- The snapshot groupby keys (source line 141): (Health Facility, Vaccine). -/
def snapKeys (melted : List MRec) : List (List Char × List Char) :=
  (melted.map (fun r => (r.facility, r.vaccine))).dedup

/-- snap_df (source lines 141-142): one row per (facility, vaccine) group
    carrying the summed quantity, dated with the formatted reference date
    (fmt models strftime of the reference instant). -/
def snapBatch (fmt : Int → List Char) (melted : List MRec) (today : Int) : List HRow :=
  (snapKeys melted).map (fun k => ⟨fmt today, k.1, k.2, pairSum melted k.1 k.2⟩)

/-- The snapshot decision (source lines 134-153): append exactly one
    batch when the gate opens, otherwise leave the log unchanged. -/
def updateHistory (pdate : List Char → Option Int) (fmt : Int → List Char)
    (hist : List HRow) (melted : List MRec) (today : Int) : List HRow :=
  if needsUpdate pdate hist today then hist ++ snapBatch fmt melted today else hist

/-- C5: assuming every recorded row has a parseable date (the history-log
    contract), exactly one snapshot batch — one row per (facility,
    vaccine) group with its summed quantity, dated with the current
    reference date — is appended iff the log is empty or its maximum
    recorded date is at least 7 days before the reference date; otherwise
    the log is unchanged; and in all cases the previous rows survive as
    an unchanged front segment of the result. -/
theorem c5_snapshot_gating (pdate : List Char → Option Int) (fmt : Int → List Char)
    (hist : List HRow) (melted : List MRec) (today : Int)
    (h : ∀ r ∈ hist, (pdate r.dateStr).isSome = true) :
    ((hist = [] ∨ ∃ M, lastSnapshotDate pdate hist = some M ∧ 7 ≤ today - M) →
      updateHistory pdate fmt hist melted today = hist ++ snapBatch fmt melted today)
    ∧ (¬(hist = [] ∨ ∃ M, lastSnapshotDate pdate hist = some M ∧ 7 ≤ today - M) →
      updateHistory pdate fmt hist melted today = hist)
    ∧ (∃ tail, updateHistory pdate fmt hist melted today = hist ++ tail)
    ∧ (∀ row ∈ snapBatch fmt melted today, row.dateStr = fmt today
        ∧ row.qty = pairSum melted row.facility row.vaccine)
    ∧ (∀ f v, (∃ row ∈ snapBatch fmt melted today, row.facility = f ∧ row.vaccine = v)
        ↔ pairOccurs melted f v)
    ∧ (∀ f v, (snapBatch fmt melted today).countP
        (fun row => decide (row.facility = f ∧ row.vaccine = v)) ≤ 1) := by
  have hgate : needsUpdate pdate hist today = true ↔
      (hist = [] ∨ ∃ M, lastSnapshotDate pdate hist = some M ∧ 7 ≤ today - M) := by
    unfold needsUpdate
    rcases hL : lastSnapshotDate pdate hist with _ | M
    · simp only [true_iff]
      left
      cases hist with
      | nil => rfl
      | cons a t =>
        exfalso
        rcases Option.isSome_iff_exists.mp (h a (List.mem_cons_self a t)) with ⟨d, hd⟩
        have hmem : d ∈ ((a :: t).filterMap (fun r => pdate r.dateStr)) :=
          List.mem_filterMap.mpr ⟨a, List.mem_cons_self a t, hd⟩
        unfold lastSnapshotDate at hL
        rw [List.max?_eq_none_iff] at hL
        rw [hL] at hmem
        exact List.not_mem_nil d hmem
    · simp only [decide_eq_true_eq]
      constructor
      · intro hh
        exact Or.inr ⟨M, rfl, hh⟩
      · rintro (rfl | ⟨M', hM', hh⟩)
        · simp [lastSnapshotDate] at hL
        · injection hM' with hMM
          rw [hMM]
          exact hh
  refine ⟨?_, ?_, ?_, ?_, ?_, ?_⟩
  · intro hg
    unfold updateHistory
    rw [if_pos (hgate.mpr hg)]
  · intro hg
    unfold updateHistory
    rw [if_neg]
    intro hu
    exact hg (hgate.mp hu)
  · unfold updateHistory
    by_cases hu : needsUpdate pdate hist today = true
    · exact ⟨snapBatch fmt melted today, by rw [if_pos hu]⟩
    · exact ⟨[], by rw [if_neg hu, List.append_nil]⟩
  · intro row hrow
    rcases List.mem_map.mp hrow with ⟨k, _, rfl⟩
    exact ⟨rfl, rfl⟩
  · intro f v
    constructor
    · rintro ⟨row, hrow, hf, hv⟩
      rcases List.mem_map.mp hrow with ⟨k, hk, rfl⟩
      simp only at hf hv
      subst hf
      subst hv
      rcases List.mem_map.mp (List.mem_dedup.mp hk) with ⟨r, hr, hkr⟩
      exact ⟨r, hr, by rw [← hkr], by rw [← hkr]⟩
    · rintro ⟨r, hr, hf, hv⟩
      refine ⟨⟨fmt today, f, v, pairSum melted f v⟩, ?_, rfl, rfl⟩
      refine List.mem_map.mpr ⟨(f, v), ?_, rfl⟩
      exact List.mem_dedup.mpr (List.mem_map.mpr ⟨r, hr, by rw [hf, hv]⟩)
  · intro f v
    unfold snapBatch
    rw [List.countP_map]
    have hc : (snapKeys melted).countP
        ((fun row : HRow => decide (row.facility = f ∧ row.vaccine = v)) ∘
          (fun k => (⟨fmt today, k.1, k.2, pairSum melted k.1 k.2⟩ : HRow)))
        = (snapKeys melted).countP (fun k => decide (k = (f, v))) := by
      apply List.countP_congr
      intro k _
      simp only [Function.comp_apply, decide_eq_true_eq, Prod.ext_iff]
    rw [hc]
    exact countP_key_le_one (List.nodup_dedup _) (f, v)

/-- Witness for c5_snapshot_gating: an empty log, one melted row and a
    trivial date parser. -/
theorem c5_snapshot_gating_witness :
    (([] : List HRow) = [] ∨ ∃ M,
        lastSnapshotDate (fun _ => some 0) [] = some M ∧ 7 ≤ (10 : Int) - M)
    ∧ updateHistory (fun _ => some 0) (fun _ => chars ("2026-01-10")) []
        [⟨chars ("A"), chars ("A"), chars ("B"), [], [], 3⟩] 10
      = [] ++ snapBatch (fun _ => chars ("2026-01-10"))
          [⟨chars ("A"), chars ("A"), chars ("B"), [], [], 3⟩] 10 := by
  have h := c5_snapshot_gating (fun _ => some 0) (fun _ => chars ("2026-01-10"))
    [] [⟨chars ("A"), chars ("A"), chars ("B"), [], [], 3⟩] 10
    (by intro r hr; exact absurd hr (List.not_mem_nil r))
  exact ⟨Or.inl rfl, h.1 (Or.inl rfl)⟩

/-- One snapshot point of a filtered history series (integer day number
    and quantity), listed in ascending date order as fac_df after
    sort_values('Date'). -/
structure Snap where
  date : Int
  qty : Int
  deriving DecidableEq, Repr

/-- The outcomes of the tab6 forecast loop (source lines 526-547). -/
inductive Forecast where
  | insufficient
  | projected (dailyBurn : ℚ) (daysLeft : Int) (estZeroDate : Int)
  | outOfStock
  | restocked
  | noConsumption
  deriving DecidableEq, Repr

/-- daily_burn (source line 535): qty_diff / days_diff in exact (real)
    arithmetic. -/
def dailyBurn (first lastS : Snap) : ℚ :=
  ((first.qty - lastS.qty : Int) : ℚ) / ((lastS.date - first.date : Int) : ℚ)

/-- days_left (source line 537): int(current_stock / daily_burn), which
    floors since both operands are positive in the branch that uses it. -/
def daysLeft (first lastS : Snap) : Int :=
  ⌊(lastS.qty : ℚ) / dailyBurn first lastS⌋

/-- The two-point branch logic (source lines 534-545) on the earliest and
    latest snapshots of the series. -/
def forecastStep (first lastS : Snap) : Forecast :=
  if 0 < lastS.date - first.date ∧ 0 < first.qty - lastS.qty then
    if 0 < lastS.qty then
      Forecast.projected (dailyBurn first lastS) (daysLeft first lastS)
        (lastS.date + daysLeft first lastS)
    else Forecast.outOfStock
  else if first.qty - lastS.qty < 0 then Forecast.restocked
  else Forecast.noConsumption

/-- The per-facility forecast (source lines 526-547): fewer than two
    snapshots is insufficient history; otherwise only the earliest and
    latest snapshots of the date-sorted series are consulted. -/
def forecast : List Snap → Forecast
  | [] => Forecast.insufficient
  | [_] => Forecast.insufficient
  | first :: s1 :: rest =>
    forecastStep first ((s1 :: rest).getLast (List.cons_ne_nil s1 rest))

theorem forecast_two (first lastS : Snap) (mid : List Snap) :
    forecast (first :: mid ++ [lastS]) = forecastStep first lastS := by
  cases mid with
  | nil => rfl
  | cons m ms =>
    show forecastStep first ((m :: (ms ++ [lastS])).getLast (List.cons_ne_nil _ _))
      = forecastStep first lastS
    congr 1
    show ((m :: ms) ++ [lastS]).getLast (by simp) = lastS
    simp [List.getLast_append]

/-- C6: over a date-sorted series with earliest snapshot first and latest
    lastS, the forecast uses only those two points: with positive elapsed
    days and positive quantity drop, daily_burn is drop / elapsed and,
    when the latest quantity is positive, the projection is the latest
    date plus floor(latest_qty / daily_burn) days; a latest quantity of
    zero reports out-of-stock instead of projecting; a negative drop
    reports restocked; fewer than two snapshots reports insufficient
    history; and 700 to 0 over 7 days gives daily_burn 100 with the
    out-of-stock report taking precedence. -/
theorem c6_forecast (first lastS : Snap) (mid : List Snap) :
    (0 < lastS.date - first.date → 0 < first.qty - lastS.qty → 0 < lastS.qty →
      forecast (first :: mid ++ [lastS])
        = Forecast.projected (dailyBurn first lastS) (daysLeft first lastS)
            (lastS.date + daysLeft first lastS))
    ∧ dailyBurn first lastS
        = ((first.qty - lastS.qty : Int) : ℚ) / ((lastS.date - first.date : Int) : ℚ)
    ∧ daysLeft first lastS = ⌊(lastS.qty : ℚ) / dailyBurn first lastS⌋
    ∧ (0 < lastS.date - first.date → 0 < first.qty - lastS.qty → lastS.qty = 0 →
      forecast (first :: mid ++ [lastS]) = Forecast.outOfStock)
    ∧ (first.qty - lastS.qty < 0 →
      forecast (first :: mid ++ [lastS]) = Forecast.restocked)
    ∧ forecast [] = Forecast.insufficient
    ∧ (∀ x : Snap, forecast [x] = Forecast.insufficient)
    ∧ dailyBurn ⟨0, 700⟩ ⟨7, 0⟩ = 100
    ∧ forecast [⟨0, 700⟩, ⟨7, 0⟩] = Forecast.outOfStock := by
  refine ⟨?_, rfl, rfl, ?_, ?_, rfl, fun x => rfl, by norm_num [dailyBurn], by decide⟩
  · intro h1 h2 h3
    rw [forecast_two]
    unfold forecastStep
    rw [if_pos ⟨h1, h2⟩, if_pos h3]
  · intro h1 h2 h3
    rw [forecast_two]
    unfold forecastStep
    rw [if_pos ⟨h1, h2⟩, if_neg (by omega)]
  · intro hd
    rw [forecast_two]
    unfold forecastStep
    rw [if_neg (fun hx => by omega), if_pos hd]

/-- Witness for c6_forecast: concrete two-point series hitting the
    projection, out-of-stock and restocked branches. -/
theorem c6_forecast_witness :
    forecast [⟨0, 10⟩, ⟨2, 4⟩] = Forecast.projected 3 1 3
    ∧ forecast [⟨0, 700⟩, ⟨7, 0⟩] = Forecast.outOfStock
    ∧ forecast [⟨0, 5⟩, ⟨3, 9⟩] = Forecast.restocked := by
  refine ⟨?_, ?_, ?_⟩
  · have h := (c6_forecast ⟨0, 10⟩ ⟨2, 4⟩ []).1 (by decide) (by decide) (by decide)
    simp only [List.cons_append, List.nil_append] at h
    rw [h]
    have hb : dailyBurn ⟨0, 10⟩ ⟨2, 4⟩ = 3 := by norm_num [dailyBurn]
    have hd : daysLeft ⟨0, 10⟩ ⟨2, 4⟩ = 1 := by
      unfold daysLeft
      rw [hb]
      norm_num
    rw [hb, hd]
    norm_num
  · exact (c6_forecast ⟨0, 700⟩ ⟨7, 0⟩ []).2.2.2.1 (by decide) (by decide) (by decide)
  · exact (c6_forecast ⟨0, 5⟩ ⟨3, 9⟩ []).2.2.2.2.1 (by decide)

/-- A raw spreadsheet cell: none models an empty/NaN cell. -/
abbrev Cell : Type := Option (List Char)

def ffillGo : Option (List Char) → List Cell → List Cell
  | _, [] => []
  | prev, none :: cs => prev :: ffillGo prev cs
  | _, some v :: cs => some v :: ffillGo (some v) cs

/-- Series.ffill over the vaccine header row (source line 103): an empty
    cell inherits the nearest preceding non-empty value; leading empty
    cells stay empty. -/
def ffillRow (row : List Cell) : List Cell := ffillGo none row

/-- Python str() of a raw cell value: NaN prints as the string nan. -/
def strCell : Cell → List Char
  | none => chars ("nan")
  | some s => s

def toLower (s : List Char) : List Char := s.map Char.toLower

def startsWith : List Char → List Char → Bool
  | [], _ => true
  | _ :: _, [] => false
  | a :: as, b :: bs => a == b && startsWith as bs

def hasSub (needle : List Char) : List Char → Bool
  | [] => needle.isEmpty
  | c :: cs => startsWith needle (c :: cs) || hasSub needle cs

/-- The exclusion filter (source line 113): case-insensitive regex
    containment of TOTAL, EXPIRING or MONTHS in the facility cell. -/
def isExcluded (s : List Char) : Bool :=
  hasSub (chars ("total")) (toLower s)
    || hasSub (chars ("expiring")) (toLower s)
    || hasSub (chars ("months")) (toLower s)

/-- One melted record as the grid parser emits it: facility text, raw
    vaccine header cell, stringified lot and expiry label, coerced
    quantity. -/
structure PRec where
  facility : List Char
  vaccine : Cell
  lot : List Char
  expiryLabel : List Char
  qty : Int
  deriving DecidableEq, Repr

/-- The shape failures the metadata-parsing block can raise: a positional
    row index out of bounds (iloc on rows 0, 2, 3 of a grid with fewer
    than 4 rows) and the column-renaming length mismatch (source line
    109). Both surface as generic pandas exceptions, not a dedicated
    error class. -/
inductive GridError where
  | indexError
  | lengthMismatch
  deriving DecidableEq, Repr

/-- The metadata parsing, exclusion filter and melt reshape (source lines
    102-120), with the quantity coercion pd.to_numeric(errors='coerce')
    .fillna(0).astype(int) as the oracle toNum. Rows 0, 2 and 3 carry
    vaccine, lot and expiry bands; data rows start at row 4 with column 0
    dropped and the facility in the next column; rows with an empty
    facility cell or an excluded keyword are removed; melt stacks
    column-by-column. -/
def parseGrid (toNum : Cell → Int) (g : List (List Cell)) :
    Except GridError (List PRec) :=
  if g.length < 4 then Except.error GridError.indexError
  else
    if (g.headD []).length - 1 ≠ 1 + (ffillRow ((g.headD []).drop 2)).length then
      Except.error GridError.lengthMismatch
    else
      Except.ok ((List.range (ffillRow ((g.headD []).drop 2)).length).flatMap (fun i =>
        ((g.drop 4).filterMap (fun r =>
          match (r.drop 1).head? with
          | none => none
          | some none => none
          | some (some fc) => if isExcluded fc then none else some (fc, r.drop 2))).map
          (fun fr =>
            ⟨fr.1, (ffillRow ((g.headD []).drop 2)).getD i none,
              strCell (((g.getD 2 []).drop 2).getD i none),
              strCell (((g.getD 3 []).drop 2).getD i none),
              toNum (fr.2.getD i none)⟩)))

theorem ffillGo_length (prev : Option (List Char)) (l : List Cell) :
    (ffillGo prev l).length = l.length := by
  induction l generalizing prev with
  | nil => rfl
  | cons c cs ih => cases c <;> simp [ffillGo, ih]

/-- C8 counterexample: a 5-row, 2-column grid — fewer columns than the
    three the header bands need to yield any column metadata — is parsed
    successfully into an empty record set (no exception, a parsed result
    is returned), refuting the claim that such grids always signal a
    MalformedGridError and never return a parsed result. -/
theorem c8_counterexample :
    parseGrid (fun _ => 0)
      [[some (chars ("V")), some (chars ("X"))],
       [none, none],
       [some (chars ("L")), none],
       [some (chars ("E")), none],
       [none, some (chars ("PHO"))]]
      = Except.ok [] := rfl

/-- C8 (amended): the source has no dedicated MalformedGridError; the
    metadata block fails — with a generic uncaught exception, fatal to
    the refresh — exactly when the grid has fewer than 4 rows (the iloc
    band accesses) or fewer than 2 columns (the column renaming), while a
    grid with exactly 2 columns, though short of the 3 the bands require
    for any data, parses into an empty record set. -/
theorem c8_grid_shape_amended (toNum : Cell → Int) (g : List (List Cell)) :
    (∃ e, parseGrid toNum g = Except.error e) ↔
      (g.length < 4 ∨ (g.headD []).length < 2) := by
  unfold parseGrid
  by_cases h1 : g.length < 4
  · simp [h1]
  · have hlen : (ffillRow ((g.headD []).drop 2)).length
        = (g.headD []).length - 2 := by
      unfold ffillRow
      rw [ffillGo_length, List.length_drop]
    by_cases h2 : (g.headD []).length - 1
        ≠ 1 + (ffillRow ((g.headD []).drop 2)).length
    · rw [if_neg h1, if_pos h2]
      constructor
      · intro _
        right
        rw [hlen] at h2
        omega
      · intro _
        exact ⟨GridError.lengthMismatch, rfl⟩
    · rw [if_neg h1, if_neg h2]
      rw [hlen] at h2
      constructor
      · rintro ⟨e, he⟩
        exact absurd he (by simp)
      · intro hh
        exfalso
        rcases hh with hh | hh
        · exact h1 hh
        · omega

end Abra
